import Mathlib

/-!
Verification of the curve25519-voi ABGLSV-Pornin multiscalar multiplication
core and the x25519 wrapper.

The evaluator `edwardsMulAbglsvPorninVartimeGeneric` and its vectorized twin
are translated from the Go source.  External collaborators that are not part
of the source tree (the scalar ring serializers, the NAF expansion, the
lattice reducer, the Edwards group primitives and lookup tables) are modelled
from the specification; each such definition carries a doc comment starting
with "Modelled from the spec".  The Edwards group is treated abstractly as an
additive commutative group `G`, with the basepoint `B` a parameter.
-/

/-- Modelled from the spec: ℓ, the prime order of the Ed25519 prime-order
subgroup (glossary of the spec). -/
def ellN : ℕ := 2 ^ 252 + 27742317777372353535851937790883648493

/-- Modelled from the spec: the scalar ring GF(ℓ), canonical values below ℓ. -/
abbrev Scalar : Type := ZMod ellN

instance : NeZero ellN := ⟨by decide⟩

/-- Squared euclidean norm of a lattice row. -/
def nrm2 (p : ℤ × ℤ) : ℤ := p.1 * p.1 + p.2 * p.2

/-- Inner product of two lattice rows. -/
def dotP (p q : ℤ × ℤ) : ℤ := p.1 * q.1 + p.2 * q.2

/-- Determinant of the 2x2 matrix formed by two lattice rows. -/
def detP (p q : ℤ × ℤ) : ℤ := p.1 * q.2 - p.2 * q.1

/-- Modelled from the spec (§4.1, the missing internal/lattice package): the
nearest-integer quotient of the inner product of the rows by the squared
norm of the shorter row, computed as a floor division. -/
def gaussQ (u v : ℤ × ℤ) : ℤ := (2 * dotP u v + nrm2 u) / (2 * nrm2 u)

/-- Modelled from the spec (§4.1, the missing internal/lattice package): one
row operation of the Gauss reduction, replacing the longer row `v` by
`v - q·u`. -/
def gaussW (u v : ℤ × ℤ) : ℤ × ℤ :=
  (v.1 - gaussQ u v * u.1, v.2 - gaussQ u v * u.2)

/-- Modelled from the spec (§4.1, the missing internal/lattice package): the
fuel-bounded two-row Gauss reduction loop.  The rows are swapped after each
reduction and the loop stops when the reduced row is no shorter than the
current short row `u`, returning `u`. -/
def gaussLoopF : ℕ → ℤ × ℤ → ℤ × ℤ → ℤ × ℤ
  | 0, u, _ => u
  | fuel + 1, u, v =>
    if nrm2 u ≤ nrm2 (gaussW u v) then u else gaussLoopF fuel (gaussW u v) u

namespace lattice

/-- Modelled from the spec (§4.1, the missing internal/lattice package):
`FindShortVector` applies Gauss reduction to the basis {(ℓ,0), (a,1)} of the
lattice {(x, y) : x ≡ a·y (mod ℓ)} and returns a short nonzero vector. -/
def FindShortVector (a : Scalar) : ℤ × ℤ :=
  gaussLoopF (ellN * ellN) (((a.val : ℕ) : ℤ), 1) (((ellN : ℕ) : ℤ), 0)

end lattice

/-- Modelled from the spec (§3, the missing scalar package): the signed digit
emitted at the current position of the width-`w` NAF expansion. -/
def nafDigit (w n : ℕ) : ℤ :=
  if n % 2 = 0 then 0
  else
    let d := n % 2 ^ w
    if d < 2 ^ (w - 1) then (d : ℤ) else (d : ℤ) - 2 ^ w

/-- Modelled from the spec (§3, the missing scalar package): the value that
remains to be expanded after emitting `nafDigit w n` and shifting one bit. -/
def nafNext (w n : ℕ) : ℕ :=
  if n % 2 = 0 then n / 2
  else
    let d := n % 2 ^ w
    if d < 2 ^ (w - 1) then (n - d) / 2 else (n + (2 ^ w - d)) / 2

/-- Modelled from the spec (§3, the missing scalar package): the list of
`fuel` signed NAF digits of `n` at window width `w`, least significant
first. -/
def wnaf (w : ℕ) : ℕ → ℕ → List ℤ
  | 0, _ => []
  | fuel + 1, n => nafDigit w n :: wnaf w fuel (nafNext w n)

/-- Modelled from the spec (§3): `non_adjacent_form(w)` of a reduced scalar,
an array of exactly 256 signed digits. -/
def scalarNonAdjacentForm (w : ℕ) (s : Scalar) : List ℤ := wnaf w 256 s.val

/-- Digit of a NAF array at an index (0 beyond the end). -/
def nafDigitAt (l : List ℤ) (j : ℕ) : ℤ := l.getD j 0

/-- Integer value represented by a little-endian signed digit list. -/
def nafListVal : List ℤ → ℤ
  | [] => 0
  | d :: rest => d + 2 * nafListVal rest

/-- Little-endian byte list of `k` bytes for the natural number `n`. -/
def natBytesAux : ℕ → ℕ → List ℕ
  | 0, _ => []
  | k + 1, n => (n % 256) :: natBytesAux k (n / 256)

/-- Natural number encoded by a little-endian byte list. -/
def bytesToNat : List ℕ → ℕ
  | [] => 0
  | b :: rest => b + 256 * bytesToNat rest

/-- Modelled from the spec (§6, the missing scalar package): the canonical
32-byte little-endian serialization of a reduced scalar. -/
def scalarBytes (s : Scalar) : List ℕ := natBytesAux 32 s.val

/-- Modelled from the spec (§6/§7, the missing scalar package): `ToBytes`
serializes a scalar, refusing a non-canonical value. -/
def scalarToBytes (s : Scalar) : Option (List ℕ) :=
  if s.val < ellN then some (scalarBytes s) else none

/-- Modelled from the spec (§6, the missing scalar package): `SetBits` loads
an arbitrary 256-bit little-endian integer from a 32-byte buffer, reducing
mod ℓ if needed, and refuses a buffer of the wrong size. -/
def scalarSetBits (buf : List ℕ) : Option Scalar :=
  if buf.length = 32 then some ((bytesToNat buf : ℕ) : Scalar) else none

/-- The starting-index scan of the evaluator: walk `j` from the given bound
down to 0, settling on the first (largest) index where the flag holds. -/
def nafScanDown (g : ℕ → Bool) : ℕ → ℕ
  | 0 => 0
  | j + 1 => if g (j + 1) then j + 1 else nafScanDown g j

/-- The combined nonzero test of the four NAF arrays used by the evaluator's
starting-index scan. -/
def evalScanFlag (n0 n1 n2 n3 : List ℤ) (j : ℕ) : Bool :=
  (nafDigitAt n0 j != 0) || (nafDigitAt n1 j != 0) ||
    (nafDigitAt n2 j != 0) || (nafDigitAt n3 j != 0)

/-- The starting index selected by the evaluator: the scan from 255 down to
0 over the four NAF arrays. -/
def evalStartIndex (n0 n1 n2 n3 : List ℤ) : ℕ :=
  nafScanDown (evalScanFlag n0 n1 n2 n3) 255

section EdwardsModel

variable {G : Type} [AddCommGroup G]

/-- Modelled from the spec (§4.2, the missing curve package): the NAF lookup
table of projective Niels multiples of a variable point; looking up the odd
digit `k` yields `[k]P`. -/
def newProjectiveNielsPointNafLookupTable (P : G) : ℕ → G := fun k => k • P

/-- Modelled from the spec (§4.2, the missing curve package): the NAF lookup
table of cached (vector-friendly) multiples of a variable point. -/
def newCachedPointNafLookupTable (P : G) : ℕ → G := fun k => k • P

/-- Modelled from the spec (§3, the missing curve package): the static table
of odd affine multiples of the basepoint `B`. -/
def constAFFINE_ODD_MULTIPLES_OF_BASEPOINT (B : G) : ℕ → G := fun k => k • B

/-- Modelled from the spec (§3, the missing curve package): the static table
of odd affine multiples of `[2^128]B`. -/
def constAFFINE_ODD_MULTIPLES_OF_B_SHL_128 (B : G) : ℕ → G :=
  fun k => k • ((2 ^ 128 : ℕ) • B)

/-- Modelled from the spec (§3, the missing curve package): the vectorized
static table of odd multiples of the basepoint `B`. -/
def constVECTOR_ODD_MULTIPLES_OF_BASEPOINT (B : G) : ℕ → G := fun k => k • B

/-- Modelled from the spec (§3, the missing curve package): the vectorized
static table of odd multiples of `[2^128]B`. -/
def constVECTOR_ODD_MULTIPLES_OF_B_SHL_128 (B : G) : ℕ → G :=
  fun k => k • ((2 ^ 128 : ℕ) • B)

/-- Modelled from the spec (§4.3, missing curve package primitives): point
doubling of the accumulator, producing a completed point. -/
def completedDouble (r : G) : G := r + r

/-- Modelled from the spec (§4.3, missing curve package primitives): doubling
of the extended-coordinates accumulator. -/
def extendedDouble (q : G) : G := q + q

/-- Modelled from the spec (coordinate conversions preserve the group
element): conversion of a completed point back to projective form. -/
def setCompletedToProjective (t : G) : G := t

/-- Modelled from the spec (coordinate conversions preserve the group
element): conversion of the projective accumulator to the output point. -/
def setProjectiveToEdwards (r : G) : G := r

/-- Modelled from the spec (coordinate conversions preserve the group
element): conversion of the extended accumulator to the output point. -/
def setExtendedToEdwards (q : G) : G := q

/-- One conditional table addition of the evaluation loop: add the table
entry for a positive digit, subtract it for a negative digit, and leave the
accumulator alone for a zero digit. -/
def nafTableTerm (t : G) (d : ℤ) (lk : ℕ → G) : G :=
  if 0 < d then t + lk d.toNat
  else if d < 0 then t - lk (-d).toNat
  else t

/-- The body of the Straus evaluation loop of the generic evaluator at index
`j`: double the accumulator into a completed point, apply the four
conditional table additions, and convert back to projective form. -/
def evalLoopBody (n0 n1 n2 n3 : List ℤ) (t0 t1 t2 t3 : ℕ → G) (j : ℕ)
    (r : G) : G :=
  setCompletedToProjective
    (nafTableTerm
      (nafTableTerm
        (nafTableTerm
          (nafTableTerm (completedDouble r) (nafDigitAt n0 j) t0)
          (nafDigitAt n1 j) t1)
        (nafDigitAt n2 j) t2)
      (nafDigitAt n3 j) t3)

/-- The body of the Straus evaluation loop of the vectorized evaluator at
index `j`, operating on the extended-coordinates accumulator. -/
def evalLoopBodyVector (n0 n1 n2 n3 : List ℤ) (t0 t1 t2 t3 : ℕ → G) (j : ℕ)
    (q : G) : G :=
  nafTableTerm
    (nafTableTerm
      (nafTableTerm
        (nafTableTerm (extendedDouble q) (nafDigitAt n0 j) t0)
        (nafDigitAt n1 j) t1)
      (nafDigitAt n2 j) t2)
    (nafDigitAt n3 j) t3

/-- The left-to-right evaluation loop: run `body` at indices `i, i-1, …, 0`
on the accumulator.  The loop of the source always executes the index-0
iteration before breaking. -/
def strausRun (body : ℕ → G → G) : ℕ → G → G
  | 0, r => body 0 r
  | i + 1, r => strausRun body i (body (i + 1) r)

/-- Translation of `edwardsMulAbglsvPorninVartimeGeneric` from the source:
Straus evaluation of `[d_0]A + [e_0]B + [e_1][2^128]B + [d_1][-C]` driven by
the lattice reduction of `a`, with a projective/completed accumulator.  A
`none` result models the panic branches of the source. -/
def edwardsMulAbglsvPorninVartimeGeneric (B : G) (a : Scalar) (A : G)
    (b : Scalar) (C : G) : Option G :=
  let dv := lattice.FindShortVector a
  let d0 := dv.1
  let d1 := dv.2
  let p_A := if d0 < 0 then -A else A
  let s_b := if d1 < 0 then -b else b
  let negC := if d1 < 0 then C else -C
  let d_0 : Scalar := ((d0.natAbs : ℕ) : Scalar)
  let d_1 : Scalar := ((d1.natAbs : ℕ) : Scalar)
  let db := s_b * d_1
  match scalarToBytes db with
  | none => none
  | some dbBuf =>
    match scalarSetBits (dbBuf.take 16 ++ List.replicate 16 0) with
    | none => none
    | some e_0 =>
      match scalarSetBits (dbBuf.drop 16 ++ List.replicate 16 0) with
      | none => none
      | some e_1 =>
        let d_0_naf := scalarNonAdjacentForm 5 d_0
        let e_0_naf := scalarNonAdjacentForm 8 e_0
        let e_1_naf := scalarNonAdjacentForm 8 e_1
        let d_1_naf := scalarNonAdjacentForm 5 d_1
        let i := evalStartIndex d_0_naf e_0_naf e_1_naf d_1_naf
        let tableA := newProjectiveNielsPointNafLookupTable p_A
        let tableB := constAFFINE_ODD_MULTIPLES_OF_BASEPOINT B
        let tableB_SHL_128 := constAFFINE_ODD_MULTIPLES_OF_B_SHL_128 B
        let tableNegC := newProjectiveNielsPointNafLookupTable negC
        some (setProjectiveToEdwards
          (strausRun
            (evalLoopBody d_0_naf e_0_naf e_1_naf d_1_naf
              tableA tableB tableB_SHL_128 tableNegC) i 0))

/-- Translation of `edwardsMulAbglsvPorninVartimeVector` from the source:
the same pipeline with an extended-coordinates accumulator and the cached
(vector) tables. -/
def edwardsMulAbglsvPorninVartimeVector (B : G) (a : Scalar) (A : G)
    (b : Scalar) (C : G) : Option G :=
  let dv := lattice.FindShortVector a
  let d0 := dv.1
  let d1 := dv.2
  let p_A := if d0 < 0 then -A else A
  let s_b := if d1 < 0 then -b else b
  let negC := if d1 < 0 then C else -C
  let d_0 : Scalar := ((d0.natAbs : ℕ) : Scalar)
  let d_1 : Scalar := ((d1.natAbs : ℕ) : Scalar)
  let db := s_b * d_1
  match scalarToBytes db with
  | none => none
  | some dbBuf =>
    match scalarSetBits (dbBuf.take 16 ++ List.replicate 16 0) with
    | none => none
    | some e_0 =>
      match scalarSetBits (dbBuf.drop 16 ++ List.replicate 16 0) with
      | none => none
      | some e_1 =>
        let d_0_naf := scalarNonAdjacentForm 5 d_0
        let e_0_naf := scalarNonAdjacentForm 8 e_0
        let e_1_naf := scalarNonAdjacentForm 8 e_1
        let d_1_naf := scalarNonAdjacentForm 5 d_1
        let i := evalStartIndex d_0_naf e_0_naf e_1_naf d_1_naf
        let tableA := newCachedPointNafLookupTable p_A
        let tableB := constVECTOR_ODD_MULTIPLES_OF_BASEPOINT B
        let tableB_SHL_128 := constVECTOR_ODD_MULTIPLES_OF_B_SHL_128 B
        let tableNegC := newCachedPointNafLookupTable negC
        some (setExtendedToEdwards
          (strausRun
            (evalLoopBodyVector d_0_naf e_0_naf e_1_naf d_1_naf
              tableA tableB tableB_SHL_128 tableNegC) i 0))

/-- Translation of `edwardsMulAbglsvPorninVartime` from the source: dispatch
on the platform capability flag `supportsVectorizedEdwards`, modelled as a
parameter. -/
def edwardsMulAbglsvPorninVartime (supportsVectorizedEdwards : Bool) (B : G)
    (a : Scalar) (A : G) (b : Scalar) (C : G) : Option G :=
  match supportsVectorizedEdwards with
  | true => edwardsMulAbglsvPorninVartimeVector B a A b C
  | false => edwardsMulAbglsvPorninVartimeGeneric B a A b C

end EdwardsModel

/-- The sign-merged scalar `db = s_b · |d₁|` computed by the evaluator on
scalars `a`, `b` (an observer of the evaluator's internal pipeline). -/
def dbScalarOf (a b : Scalar) : Scalar :=
  (if (lattice.FindShortVector a).2 < 0 then -b else b) *
    (((lattice.FindShortVector a).2.natAbs : ℕ) : Scalar)

/-- The scalar `e_0` built by the evaluator: the low 16 bytes of the
serialization of `db`, zero-padded and reloaded via `SetBits`. -/
def e0Of (a b : Scalar) : Scalar :=
  ((bytesToNat ((scalarBytes (dbScalarOf a b)).take 16 ++
    List.replicate 16 0) : ℕ) : Scalar)

/-- The scalar `e_1` built by the evaluator: the high 16 bytes of the
serialization of `db`, zero-padded and reloaded via `SetBits`. -/
def e1Of (a b : Scalar) : Scalar :=
  ((bytesToNat ((scalarBytes (dbScalarOf a b)).drop 16 ++
    List.replicate 16 0) : ℕ) : Scalar)

/-- Translation of `clampScalar` from x25519.go: clear the low 3 bits of
byte 0, clear the top bit of byte 31 and set bit 6 of byte 31. -/
def clampScalar (s : List ℕ) : List ℕ :=
  let s1 := s.set 0 ((s.getD 0 0) &&& 248)
  let s2 := s1.set 31 ((s1.getD 31 0) &&& 127)
  s2.set 31 ((s2.getD 31 0) ||| 64)

/-- Translation of `ScalarMult` from x25519.go, parameterized by the
external Montgomery ladder `montMul`.  The first component is the bytes
written to `dst` (`none` models the panic branches); the second component is
the caller's scalar buffer after the call — the source copies `in` into the
local `ec` before clamping and never writes through `in`. -/
def ScalarMult (montMul : Scalar → List ℕ → List ℕ) (inB base : List ℕ) :
    Option (List ℕ) × List ℕ :=
  let ec := clampScalar inB
  (match scalarSetBits ec with
   | none => none
   | some s =>
     if base.length = 32 then some (montMul s base) else none,
   inB)

/-- Translation of `ScalarBaseMult` from x25519.go, parameterized by the
external fixed-base Edwards multiplication composed with the Montgomery
conversion (`edBaseMul`).  Components as in `ScalarMult`. -/
def ScalarBaseMult (edBaseMul : Scalar → List ℕ) (inB : List ℕ) :
    Option (List ℕ) × List ℕ :=
  let ec := clampScalar inB
  (match scalarSetBits ec with
   | none => none
   | some s => some (edBaseMul s),
   inB)

/-- Translation of `x25519` from x25519.go.  The pointer identity test
`&point[0] == &Basepoint[0]` is modelled by the flag `pointIsBasepoint`;
`checkBasepoint` always passes because the model's `Basepoint` is a
constant.  A `none` result models a non-nil returned error (in which case
the source returns a nil slice). -/
def x25519 (montMul : Scalar → List ℕ → List ℕ)
    (edBaseMul : Scalar → List ℕ) (scalar point : List ℕ)
    (pointIsBasepoint : Bool) : Option (List ℕ) :=
  if scalar.length ≠ 32 then none
  else if point.length ≠ 32 then none
  else if pointIsBasepoint then (ScalarBaseMult edBaseMul scalar).1
  else
    match (ScalarMult montMul scalar point).1 with
    | none => none
    | some dst => if dst = List.replicate 32 0 then none else some dst

/-! ## Arithmetic facts about ℓ -/

lemma ellN_big : (2:ℤ) ≤ (ellN : ℤ) := by
  have h : (2:ℕ) ≤ ellN := by decide
  exact_mod_cast h

lemma ellN_lt_2_253 : ellN < 2 ^ 253 := by decide

lemma two_128_lt_ellN : 2 ^ 128 < ellN := by decide

lemma two_129_lt_ellN : 2 ^ 129 < ellN := by decide

lemma four_ellN_sq_lt : 4 * (ellN:ℤ) ^ 2 < 3 * ((2:ℤ) ^ 258) ^ 2 := by
  have h : 4 * ellN ^ 2 < 3 * (2 ^ 258) ^ 2 := by decide
  exact_mod_cast h

/-! ## The lattice reducer -/

lemma nrm2_nonneg (p : ℤ × ℤ) : 0 ≤ nrm2 p := by
  have h1 := mul_self_nonneg p.1
  have h2 := mul_self_nonneg p.2
  unfold nrm2; linarith

lemma nrm2_pos_of_det (p q : ℤ × ℤ) (L : ℤ) (hL : 0 < L)
    (hd : detP p q = L ∨ detP p q = -L) : 0 < nrm2 p := by
  rcases lt_or_eq_of_le (nrm2_nonneg p) with h | h
  · exact h
  · exfalso
    have h1s := mul_self_nonneg p.1
    have h2s := mul_self_nonneg p.2
    have h1 : p.1 = 0 := by
      have h0 : p.1 * p.1 = 0 := by unfold nrm2 at h; linarith
      exact mul_self_eq_zero.mp h0
    have h2 : p.2 = 0 := by
      have h0 : p.2 * p.2 = 0 := by unfold nrm2 at h; linarith
      exact mul_self_eq_zero.mp h0
    unfold detP at hd
    rcases hd with hd | hd <;> rw [h1, h2] at hd <;> simp at hd <;> omega

lemma lagrange_identity (p q : ℤ × ℤ) :
    detP p q ^ 2 + dotP p q ^ 2 = nrm2 p * nrm2 q := by
  unfold detP dotP nrm2; ring

lemma detP_gaussW (u v : ℤ × ℤ) : detP u (gaussW u v) = detP u v := by
  unfold detP gaussW; ring

lemma detP_gaussW_swap (u v : ℤ × ℤ) : detP (gaussW u v) u = - detP u v := by
  unfold detP gaussW; ring

lemma dotP_gaussW (u v : ℤ × ℤ) :
    dotP u (gaussW u v) = dotP u v - gaussQ u v * nrm2 u := by
  unfold dotP gaussW nrm2; ring

lemma gaussQ_round (u v : ℤ × ℤ) (hn : 0 < nrm2 u) :
    (2 * (dotP u v - gaussQ u v * nrm2 u)) ^ 2 ≤ (nrm2 u) ^ 2 := by
  set s := dotP u v
  set n := nrm2 u
  have h2n : (0:ℤ) < 2 * n := by linarith
  have hdm := Int.ediv_add_emod (2 * s + n) (2 * n)
  have hr0 : 0 ≤ (2 * s + n) % (2 * n) := Int.emod_nonneg _ (by omega)
  have hr1 : (2 * s + n) % (2 * n) < 2 * n := Int.emod_lt_of_pos _ h2n
  have key : 2 * (s - gaussQ u v * n) = (2 * s + n) % (2 * n) - n := by
    have hq : gaussQ u v = (2 * s + n) / (2 * n) := rfl
    rw [hq]; linarith [hdm]
  rw [key]
  nlinarith [hr0, hr1]

lemma gaussLoopF_spec (aZ L : ℤ) (hL : 0 < L) : ∀ (fuel : ℕ) (u v : ℤ × ℤ),
    (detP u v = L ∨ detP u v = -L) →
    (L ∣ (u.1 - aZ * u.2)) → (L ∣ (v.1 - aZ * v.2)) →
    (nrm2 u).toNat ≤ fuel →
    (L ∣ ((gaussLoopF fuel u v).1 - aZ * (gaussLoopF fuel u v).2)) ∧
    0 < nrm2 (gaussLoopF fuel u v) ∧
    3 * (nrm2 (gaussLoopF fuel u v)) ^ 2 ≤ 4 * L ^ 2 := by
  intro fuel
  induction fuel with
  | zero =>
    intro u v hdet hu hv hfuel
    exfalso
    have hpos : 0 < nrm2 u := nrm2_pos_of_det u v L hL hdet
    omega
  | succ fuel ih =>
    intro u v hdet hu hv hfuel
    have hpos : 0 < nrm2 u := nrm2_pos_of_det u v L hL hdet
    rw [gaussLoopF]
    by_cases hif : nrm2 u ≤ nrm2 (gaussW u v)
    · rw [if_pos hif]
      refine ⟨hu, hpos, ?_⟩
      have hdet' : detP u (gaussW u v) = L ∨ detP u (gaussW u v) = -L := by
        rw [detP_gaussW]; exact hdet
      have hL2 : detP u (gaussW u v) ^ 2 = L ^ 2 := by
        rcases hdet' with h | h <;> rw [h] <;> ring
      have hlag := lagrange_identity u (gaussW u v)
      rw [hL2, dotP_gaussW] at hlag
      have hrb := gaussQ_round u v hpos
      nlinarith [hlag, hrb, hif, hpos]
    · rw [if_neg hif]
      push_neg at hif
      have hdet' : detP (gaussW u v) u = L ∨ detP (gaussW u v) u = -L := by
        rw [detP_gaussW_swap]
        rcases hdet with h | h
        · right; rw [h]
        · left; rw [h]; ring
      have hwdvd : L ∣ ((gaussW u v).1 - aZ * (gaussW u v).2) := by
        unfold gaussW
        have heq : v.1 - gaussQ u v * u.1 - aZ * (v.2 - gaussQ u v * u.2)
            = (v.1 - aZ * v.2) - gaussQ u v * (u.1 - aZ * u.2) := by ring
        simp only [heq]
        exact dvd_sub hv (Dvd.dvd.mul_left hu _)
      have hfuel' : (nrm2 (gaussW u v)).toNat ≤ fuel := by
        have h1 := nrm2_nonneg (gaussW u v)
        omega
      exact ih (gaussW u v) u hdet' hwdvd hu hfuel'

lemma FindShortVector_spec (a : Scalar) :
    ((ellN:ℤ) ∣ ((lattice.FindShortVector a).1
      - (a.val:ℤ) * (lattice.FindShortVector a).2)) ∧
    (lattice.FindShortVector a).2 ≠ 0 ∧
    (lattice.FindShortVector a).1.natAbs < 2 ^ 129 ∧
    (lattice.FindShortVector a).2.natAbs < 2 ^ 129 := by
  have hL : (0:ℤ) < (ellN:ℤ) := by linarith [ellN_big]
  have hval : a.val < ellN := ZMod.val_lt a
  have hdet : detP (((a.val:ℕ):ℤ), 1) (((ellN:ℕ):ℤ), 0) = (ellN:ℤ) ∨
      detP (((a.val:ℕ):ℤ), 1) (((ellN:ℕ):ℤ), 0) = -(ellN:ℤ) := by
    right; unfold detP; ring
  have hu : (ellN:ℤ) ∣ (((a.val:ℕ):ℤ), (1:ℤ)).1
      - (a.val:ℤ) * (((a.val:ℕ):ℤ), (1:ℤ)).2 := by
    simp
  have hv : (ellN:ℤ) ∣ (((ellN:ℕ):ℤ), (0:ℤ)).1
      - (a.val:ℤ) * (((ellN:ℕ):ℤ), (0:ℤ)).2 := by
    simp
  have hfuel : (nrm2 (((a.val:ℕ):ℤ), 1)).toNat ≤ ellN * ellN := by
    have h1 : nrm2 (((a.val:ℕ):ℤ), 1) = ((a.val * a.val + 1 : ℕ) : ℤ) := by
      unfold nrm2; push_cast; ring
    rw [h1, Int.toNat_natCast]
    have h2 : a.val + 1 ≤ ellN := hval
    calc a.val * a.val + 1 ≤ (a.val + 1) * (a.val + 1) := by nlinarith
      _ ≤ ellN * ellN := Nat.mul_le_mul h2 h2
  obtain ⟨hdvd, hpos, hbnd⟩ :=
    gaussLoopF_spec (a.val:ℤ) (ellN:ℤ) hL (ellN * ellN)
      (((a.val:ℕ):ℤ), 1) (((ellN:ℕ):ℤ), 0) hdet hu hv hfuel
  set r := gaussLoopF (ellN * ellN) (((a.val:ℕ):ℤ), 1) (((ellN:ℕ):ℤ), 0)
    with hr
  have hrfs : lattice.FindShortVector a = r := rfl
  rw [hrfs]
  have habs : ∀ z : ℤ, z ^ 2 ≤ nrm2 r → z.natAbs < 2 ^ 129 := by
    intro z hz
    by_contra hc
    push_neg at hc
    have h1 : ((2:ℤ) ^ 129) ≤ (z.natAbs : ℤ) := by exact_mod_cast hc
    have h2 : ((2:ℤ) ^ 129) ^ 2 ≤ ((z.natAbs : ℤ)) ^ 2 := by
      apply pow_le_pow_left₀ (by positivity) h1
    have h3 : ((z.natAbs : ℤ)) ^ 2 = z ^ 2 := by
      rw [← Int.abs_eq_natAbs, sq_abs]
    have h4 : ((2:ℤ) ^ 258) ≤ nrm2 r := by
      have h0 : ((2:ℤ) ^ 129) ^ 2 = (2:ℤ) ^ 258 := by norm_num
      rw [h0] at h2; rw [h3] at h2; linarith
    have h5 : 3 * ((2:ℤ) ^ 258) ^ 2 ≤ 3 * (nrm2 r) ^ 2 := by
      have h0 := pow_le_pow_left₀ (show (0:ℤ) ≤ 2 ^ 258 by positivity) h4 2
      linarith
    linarith [four_ellN_sq_lt, hbnd]
  refine ⟨hdvd, ?_, ?_, ?_⟩
  · intro h2zero
    have h1 : (ellN:ℤ) ∣ r.1 := by
      have h0 : r.1 - (a.val:ℤ) * r.2 = r.1 := by rw [h2zero]; ring
      rwa [h0] at hdvd
    have h2 : r.1 ≠ 0 := by
      intro h1zero
      unfold nrm2 at hpos
      rw [h1zero, h2zero] at hpos
      simp at hpos
    have h3 : (ellN:ℤ) ≤ |r.1| :=
      Int.le_of_dvd (abs_pos.mpr h2) ((dvd_abs _ _).mpr h1)
    have h4 : (ellN:ℤ) ^ 2 ≤ r.1 ^ 2 := by
      have h := pow_le_pow_left₀
        (show (0:ℤ) ≤ (ellN:ℤ) by linarith [ellN_big]) h3 2
      rwa [sq_abs] at h
    have h5 : (ellN:ℤ) ^ 2 ≤ nrm2 r := by
      unfold nrm2
      rw [h2zero]
      nlinarith [h4]
    have h6 := ellN_big
    nlinarith [hbnd, h5, h6, sq_nonneg ((ellN:ℤ) ^ 2 - 2)]
  · apply habs
    have h0 := mul_self_nonneg r.2
    unfold nrm2; nlinarith [sq_nonneg r.1]
  · apply habs
    have h0 := mul_self_nonneg r.1
    unfold nrm2; nlinarith [sq_nonneg r.2]

/-! ## Correctness of the NAF expansion -/

lemma pow_split (w : ℕ) (hw : 1 ≤ w) : (2:ℕ) ^ w = 2 * 2 ^ (w - 1) := by
  conv_lhs => rw [show w = (w - 1) + 1 by omega]
  rw [pow_succ]; ring

lemma nafStep (w n : ℕ) (hw : 1 ≤ w) :
    nafDigit w n + 2 * ((nafNext w n : ℕ) : ℤ) = (n : ℤ) := by
  have hpow := pow_split w hw
  have hdm := Nat.div_add_mod n (2 ^ w)
  have hdlt : n % 2 ^ w < 2 ^ w := Nat.mod_lt n (by positivity)
  unfold nafDigit nafNext
  by_cases h2 : n % 2 = 0
  · simp only [if_pos h2]
    omega
  · simp only [if_neg h2]
    have hkey : 2 ^ w * (n / 2 ^ w) = 2 * (2 ^ (w - 1) * (n / 2 ^ w)) := by
      rw [hpow]; ring
    generalize hm : 2 ^ (w - 1) * (n / 2 ^ w) = m at hkey
    rw [hkey] at hdm
    generalize hd : n % 2 ^ w = d at hdm hdlt ⊢
    by_cases hsmall : d < 2 ^ (w - 1)
    · rw [if_pos hsmall, if_pos hsmall]
      omega
    · rw [if_neg hsmall, if_neg hsmall]
      have hcast : ((2 : ℤ)) ^ w = ((2 ^ w : ℕ) : ℤ) := by push_cast; ring
      rw [hcast]
      omega

lemma nafNext_le (w n : ℕ) (hw : 1 ≤ w) : 2 * nafNext w n ≤ n + 2 ^ (w - 1) := by
  have hpow := pow_split w hw
  have hdle : n % 2 ^ w ≤ n := Nat.mod_le n _
  have hdlt : n % 2 ^ w < 2 ^ w := Nat.mod_lt n (by positivity)
  unfold nafNext
  by_cases h2 : n % 2 = 0
  · simp only [if_pos h2]; omega
  · simp only [if_neg h2]
    by_cases hsmall : n % 2 ^ w < 2 ^ (w - 1)
    · simp only [if_pos hsmall]; omega
    · simp only [if_neg hsmall]; omega

lemma iterate_phase1 (w : ℕ) (hw : 1 ≤ w) : ∀ j n,
    n ≤ 2 ^ (w + j) + 2 ^ (w - 1) - 1 →
    (nafNext w)^[j] n ≤ 2 ^ w + 2 ^ (w - 1) - 1 := by
  intro j
  induction j with
  | zero => intro n hn; simpa using hn
  | succ j ih =>
    intro n hn
    rw [Function.iterate_succ_apply]
    apply ih
    have h1 := nafNext_le w n hw
    have h2 : (2:ℕ) ^ (w + (j + 1)) = 2 * 2 ^ (w + j) := by
      rw [show w + (j + 1) = (w + j) + 1 by omega, pow_succ]; ring
    have h3 : (2:ℕ) ^ w = 2 * 2 ^ (w - 1) := pow_split w hw
    have h4 : 1 ≤ (2:ℕ) ^ (w - 1) := Nat.one_le_two_pow
    omega

lemma nafStepA (w n : ℕ) (hw : 1 ≤ w) (hn : n ≤ 2 ^ w + 2 ^ (w - 1) - 1) :
    nafNext w n ≤ 2 ^ w - 1 := by
  have h1 := nafNext_le w n hw
  have h3 := pow_split w hw
  have h4 : 1 ≤ (2:ℕ) ^ (w - 1) := Nat.one_le_two_pow
  omega

lemma nafStepD (w n : ℕ) (hw : 1 ≤ w) (hn : n ≤ 2 ^ w - 1) :
    nafNext w n ≤ 2 ^ (w - 1) := by
  have hpow := pow_split w hw
  have h4 : 1 ≤ (2:ℕ) ^ (w - 1) := Nat.one_le_two_pow
  unfold nafNext
  by_cases h2 : n % 2 = 0
  · simp only [if_pos h2]; omega
  · simp only [if_neg h2]
    have hlt : n < 2 ^ w := by omega
    have hd : n % 2 ^ w = n := Nat.mod_eq_of_lt hlt
    rw [hd]
    by_cases hsmall : n < 2 ^ (w - 1)
    · simp only [if_pos hsmall]; omega
    · simp only [if_neg hsmall]; omega

lemma nafStepK (w : ℕ) (hw : 2 ≤ w) : ∀ k, k + 1 ≤ w → ∀ n, n ≤ 2 ^ k →
    (nafNext w)^[k + 1] n = 0 := by
  intro k
  induction k with
  | zero =>
    intro _ n hn
    interval_cases n
    · simp [nafNext]
    · rw [Function.iterate_one]
      unfold nafNext
      have h1 : (1:ℕ) % 2 ≠ 0 := by omega
      simp only [if_neg h1]
      have h2 : (1:ℕ) % 2 ^ w = 1 := Nat.mod_eq_of_lt (by
        have h0 : (2:ℕ) ^ 2 ≤ 2 ^ w := Nat.pow_le_pow_right (by omega) hw
        omega)
      rw [h2]
      have h3 : (1:ℕ) < 2 ^ (w - 1) := by
        have h0 : (2:ℕ) ^ 1 ≤ 2 ^ (w - 1) :=
          Nat.pow_le_pow_right (by omega) (by omega)
        omega
      simp only [if_pos h3]
  | succ k ih =>
    intro hk n hn
    rw [show k + 1 + 1 = (k + 1) + 1 by rfl, Function.iterate_succ_apply]
    apply ih (by omega)
    have hpow := pow_split w (by omega)
    have hpow2 : (2:ℕ) ^ (w - 1) = 2 * 2 ^ (w - 2) := by
      conv_lhs => rw [show w - 1 = (w - 2) + 1 by omega]
      rw [pow_succ]; ring
    have hk2 : (2:ℕ) ^ (k + 1) ≤ 2 ^ (w - 1) :=
      Nat.pow_le_pow_right (by omega) (by omega)
    unfold nafNext
    by_cases h2 : n % 2 = 0
    · simp only [if_pos h2]; omega
    · simp only [if_neg h2]
      have hlt : n < 2 ^ w := by omega
      have hd : n % 2 ^ w = n := Nat.mod_eq_of_lt hlt
      rw [hd]
      by_cases hsmall : n < 2 ^ (w - 1)
      · simp only [if_pos hsmall]; omega
      · simp only [if_neg hsmall]; omega

lemma nafNext_zero (w : ℕ) : nafNext w 0 = 0 := by simp [nafNext]

lemma nafIter_zero (w n : ℕ) (hw2 : 2 ≤ w) (hw253 : w ≤ 253)
    (hn : n < 2 ^ 253) : (nafNext w)^[256] n = 0 := by
  set f := nafNext w with hf
  set j := 253 - w with hj
  have h255 : f^[255] n = 0 := by
    have e : (255:ℕ) = w + (1 + (1 + j)) := by omega
    rw [e, Function.iterate_add_apply, Function.iterate_add_apply,
      Function.iterate_add_apply]
    simp only [Function.iterate_one]
    have a1 : f^[j] n ≤ 2 ^ w + 2 ^ (w - 1) - 1 := by
      apply iterate_phase1 w (by omega)
      have h0 : w + j = 253 := by omega
      rw [h0]
      have h4 : 1 ≤ (2:ℕ) ^ (w - 1) := Nat.one_le_two_pow
      omega
    have a2 : f (f^[j] n) ≤ 2 ^ w - 1 := nafStepA w _ (by omega) a1
    have a3 : f (f (f^[j] n)) ≤ 2 ^ (w - 1) := nafStepD w _ (by omega) a2
    have a4 := nafStepK w hw2 (w - 1) (by omega) _ a3
    rw [show (w - 1) + 1 = w by omega] at a4
    exact a4
  rw [show (256:ℕ) = 1 + 255 by rfl, Function.iterate_add_apply,
    Function.iterate_one, h255]
  exact nafNext_zero w

lemma wnaf_val_telescope (w : ℕ) (hw : 1 ≤ w) :
    ∀ fuel n, nafListVal (wnaf w fuel n)
      = (n:ℤ) - 2 ^ fuel * (((nafNext w)^[fuel] n : ℕ) : ℤ) := by
  intro fuel
  induction fuel with
  | zero => intro n; simp [wnaf, nafListVal]
  | succ fuel ih =>
    intro n
    rw [wnaf]
    show nafDigit w n + 2 * nafListVal (wnaf w fuel (nafNext w n)) = _
    rw [ih (nafNext w n), Function.iterate_succ_apply]
    have h := nafStep w n hw
    push_cast at h ⊢
    linear_combination h

lemma wnaf_length (w : ℕ) : ∀ fuel n, (wnaf w fuel n).length = fuel := by
  intro fuel
  induction fuel with
  | zero => intro n; rfl
  | succ fuel ih => intro n; rw [wnaf]; simp [ih]

lemma wnaf_val (w n : ℕ) (hw2 : 2 ≤ w) (hw253 : w ≤ 253) (hn : n < 2 ^ 253) :
    nafListVal (wnaf w 256 n) = (n:ℤ) := by
  rw [wnaf_val_telescope w (by omega) 256 n, nafIter_zero w n hw2 hw253 hn]
  simp

lemma scalarNAF_length (w : ℕ) (s : Scalar) :
    (scalarNonAdjacentForm w s).length = 256 := wnaf_length w 256 s.val

lemma scalarNAF_listVal (w : ℕ) (hw2 : 2 ≤ w) (hw253 : w ≤ 253) (s : Scalar) :
    nafListVal (scalarNonAdjacentForm w s) = (s.val : ℤ) := by
  apply wnaf_val w s.val hw2 hw253
  have h1 : s.val < ellN := ZMod.val_lt s
  have h2 := ellN_lt_2_253
  omega

/-! ## Scalar serialization -/

lemma natBytesAux_length : ∀ k n, (natBytesAux k n).length = k := by
  intro k
  induction k with
  | zero => intro n; rfl
  | succ k ih => intro n; rw [natBytesAux]; simp [ih]

lemma bytesToNat_natBytesAux : ∀ k n,
    bytesToNat (natBytesAux k n) = n % 256 ^ k := by
  intro k
  induction k with
  | zero => intro n; simp [natBytesAux, bytesToNat, Nat.mod_one]
  | succ k ih =>
    intro n
    rw [natBytesAux]
    show n % 256 + 256 * bytesToNat (natBytesAux k (n / 256)) = n % 256 ^ (k + 1)
    rw [ih (n / 256)]
    have h1 : n / 256 % 256 ^ k = n % (256 * 256 ^ k) / 256 :=
      Nat.div_mod_eq_mod_mul_div n 256 (256 ^ k)
    have h2 : n % 256 ^ (k + 1) % 256 = n % 256 := by
      apply Nat.mod_mod_of_dvd
      exact dvd_pow_self 256 (by omega)
    have h3 : (256:ℕ) ^ (k + 1) = 256 * 256 ^ k := by rw [pow_succ]; ring
    rw [h1, ← h3]
    conv_lhs => rw [← h2]
    exact Nat.mod_add_div _ _

lemma natBytesAux_append : ∀ a b n,
    natBytesAux (a + b) n = natBytesAux a n ++ natBytesAux b (n / 256 ^ a) := by
  intro a
  induction a with
  | zero => intro b n; simp [natBytesAux]
  | succ a ih =>
    intro b n
    rw [show a + 1 + b = (a + b) + 1 by omega]
    rw [natBytesAux, natBytesAux, ih b (n / 256)]
    simp only [List.cons_append, List.cons.injEq, true_and]
    congr 1
    rw [Nat.div_div_eq_div_mul]
    congr 1
    rw [pow_succ]; ring

lemma bytesToNat_append : ∀ l1 l2, bytesToNat (l1 ++ l2)
    = bytesToNat l1 + 256 ^ l1.length * bytesToNat l2 := by
  intro l1
  induction l1 with
  | nil => intro l2; simp [bytesToNat]
  | cons b t ih =>
    intro l2
    rw [List.cons_append]
    show b + 256 * bytesToNat (t ++ l2)
      = (b + 256 * bytesToNat t) + 256 ^ (t.length + 1) * bytesToNat l2
    rw [ih l2, pow_succ]
    ring

lemma bytesToNat_replicate_zero : ∀ k, bytesToNat (List.replicate k 0) = 0 := by
  intro k
  induction k with
  | zero => rfl
  | succ k ih =>
    rw [List.replicate_succ]
    show 0 + 256 * bytesToNat (List.replicate k 0) = 0
    rw [ih]

lemma natBytesAux_take (n : ℕ) :
    (natBytesAux 32 n).take 16 = natBytesAux 16 n := by
  rw [show (32:ℕ) = 16 + 16 by rfl, natBytesAux_append]
  rw [← natBytesAux_length 16 n]
  exact List.take_left _ _

lemma natBytesAux_drop (n : ℕ) :
    (natBytesAux 32 n).drop 16 = natBytesAux 16 (n / 256 ^ 16) := by
  rw [show (32:ℕ) = 16 + 16 by rfl, natBytesAux_append]
  rw [← natBytesAux_length 16 n]
  exact List.drop_left _ _

lemma pow256_16 : (256:ℕ) ^ 16 = 2 ^ 128 := by norm_num

lemma bytesToNat_low (n : ℕ) :
    bytesToNat ((natBytesAux 32 n).take 16 ++ List.replicate 16 0)
      = n % 2 ^ 128 := by
  rw [natBytesAux_take, bytesToNat_append, bytesToNat_replicate_zero,
    bytesToNat_natBytesAux, pow256_16]
  ring

lemma bytesToNat_high (n : ℕ) (hn : n < 2 ^ 256) :
    bytesToNat ((natBytesAux 32 n).drop 16 ++ List.replicate 16 0)
      = n / 2 ^ 128 := by
  rw [natBytesAux_drop, bytesToNat_append, bytesToNat_replicate_zero,
    bytesToNat_natBytesAux, pow256_16]
  have h1 : n / 2 ^ 128 < 2 ^ 128 := by
    apply Nat.div_lt_of_lt_mul
    calc n < 2 ^ 256 := hn
      _ = 2 ^ 128 * 2 ^ 128 := by norm_num
  rw [Nat.mod_eq_of_lt h1]
  ring

lemma scalar_val_lt_2_256 (s : Scalar) : s.val < 2 ^ 256 := by
  have h1 : s.val < ellN := ZMod.val_lt s
  have h2 := ellN_lt_2_253
  have h3 : (2:ℕ) ^ 253 ≤ 2 ^ 256 := Nat.pow_le_pow_right (by omega) (by omega)
  omega

lemma scalarToBytes_eq (s : Scalar) :
    scalarToBytes s = some (scalarBytes s) := by
  unfold scalarToBytes
  rw [if_pos (ZMod.val_lt s)]

lemma scalarSetBits_low (s : Scalar) :
    scalarSetBits ((scalarBytes s).take 16 ++ List.replicate 16 0)
      = some (((s.val % 2 ^ 128 : ℕ) : Scalar)) := by
  unfold scalarSetBits scalarBytes
  rw [if_pos (by rw [natBytesAux_take]; simp [natBytesAux_length])]
  rw [bytesToNat_low]

lemma scalarSetBits_high (s : Scalar) :
    scalarSetBits ((scalarBytes s).drop 16 ++ List.replicate 16 0)
      = some (((s.val / 2 ^ 128 : ℕ) : Scalar)) := by
  unfold scalarSetBits scalarBytes
  rw [if_pos (by rw [natBytesAux_drop]; simp [natBytesAux_length])]
  rw [bytesToNat_high s.val (scalar_val_lt_2_256 s)]

lemma val_low (s : Scalar) :
    (((s.val % 2 ^ 128 : ℕ) : Scalar)).val = s.val % 2 ^ 128 := by
  apply ZMod.val_cast_of_lt
  have h1 : s.val % 2 ^ 128 < 2 ^ 128 := Nat.mod_lt _ (by positivity)
  have h2 := two_128_lt_ellN
  omega

lemma val_high (s : Scalar) :
    (((s.val / 2 ^ 128 : ℕ) : Scalar)).val = s.val / 2 ^ 128 := by
  apply ZMod.val_cast_of_lt
  have h1 : s.val < ellN := ZMod.val_lt s
  have h2 := ellN_lt_2_253
  have h3 : s.val / 2 ^ 128 < 2 ^ 125 := by
    apply Nat.div_lt_of_lt_mul
    calc s.val < 2 ^ 253 := by omega
      _ = 2 ^ 128 * 2 ^ 125 := by norm_num
  have h4 : (2:ℕ) ^ 125 < 2 ^ 128 := by norm_num
  have h5 := two_128_lt_ellN
  omega

/-! ## The starting-index scan -/

lemma nafScanDown_le (g : ℕ → Bool) : ∀ N, nafScanDown g N ≤ N := by
  intro N
  induction N with
  | zero => exact Nat.le_refl 0
  | succ N ih =>
    rw [nafScanDown]
    by_cases h : g (N + 1)
    · rw [if_pos h]
    · rw [if_neg h]; omega

lemma nafScanDown_ge (g : ℕ → Bool) :
    ∀ N j, j ≤ N → g j = true → j ≤ nafScanDown g N := by
  intro N
  induction N with
  | zero => intro j hj _; omega
  | succ N ih =>
    intro j hj hg
    rw [nafScanDown]
    by_cases h : g (N + 1)
    · rw [if_pos h]; omega
    · rw [if_neg h]
      have hj' : j ≤ N := by
        rcases Nat.lt_or_ge j (N + 1) with h1 | h1
        · omega
        · exfalso
          have h0 : j = N + 1 := by omega
          rw [h0] at hg
          rw [hg] at h
          exact h rfl
      exact ih j hj' hg

lemma nafScanDown_true (g : ℕ → Bool) :
    ∀ N, (∃ j, j ≤ N ∧ g j = true) → g (nafScanDown g N) = true := by
  intro N
  induction N with
  | zero =>
    rintro ⟨j, hj, hg⟩
    have h0 : j = 0 := by omega
    rw [h0] at hg
    exact hg
  | succ N ih =>
    rintro ⟨j, hj, hg⟩
    rw [nafScanDown]
    by_cases h : g (N + 1)
    · rw [if_pos h]; exact h
    · rw [if_neg h]
      apply ih
      refine ⟨j, ?_, hg⟩
      rcases Nat.lt_or_ge j (N + 1) with h1 | h1
      · omega
      · exfalso
        have h0 : j = N + 1 := by omega
        rw [h0] at hg; rw [hg] at h; exact h rfl

/-! ## The Straus evaluation loop -/

lemma sum_nafDigitAt (l : List ℤ) : ∀ N, l.length ≤ N →
    ∑ j ∈ Finset.range N, nafDigitAt l j * 2 ^ j = nafListVal l := by
  induction l with
  | nil =>
    intro N _
    have h : ∀ j, nafDigitAt ([] : List ℤ) j = 0 := by
      intro j; rfl
    simp [h, nafListVal]
  | cons d t ih =>
    intro N hN
    rcases N with _ | M
    · simp at hN
    · rw [Finset.sum_range_succ']
      have h0 : nafDigitAt (d :: t) 0 = d := rfl
      have hsucc : ∀ j, nafDigitAt (d :: t) (j + 1) = nafDigitAt t j := by
        intro j; rfl
      rw [h0]
      have hre : ∀ j ∈ Finset.range M,
          nafDigitAt (d :: t) (j + 1) * 2 ^ (j + 1)
            = 2 * (nafDigitAt t j * 2 ^ j) := by
        intro j _
        rw [hsucc j, pow_succ]
        ring
      rw [Finset.sum_congr rfl hre, ← Finset.mul_sum]
      have hlt : t.length ≤ M := by
        simp only [List.length_cons] at hN
        omega
      rw [ih M hlt]
      show 2 * nafListVal t + d * 2 ^ 0 = nafListVal (d :: t)
      show 2 * nafListVal t + d * 2 ^ 0 = d + 2 * nafListVal t
      ring

section StrausLemmas

variable {G : Type} [AddCommGroup G]

lemma nafTableTerm_eq (t : G) (d : ℤ) (P : G) :
    nafTableTerm t d (fun k => k • P) = t + d • P := by
  unfold nafTableTerm
  by_cases h1 : 0 < d
  · rw [if_pos h1]
    show t + d.toNat • P = t + d • P
    congr 1
    rw [← natCast_zsmul, Int.toNat_of_nonneg (le_of_lt h1)]
  · rw [if_neg h1]
    by_cases h2 : d < 0
    · rw [if_pos h2]
      show t - (-d).toNat • P = t + d • P
      rw [← natCast_zsmul, Int.toNat_of_nonneg (by omega), sub_eq_add_neg,
        ← neg_zsmul]
      congr 1
      ring
    · rw [if_neg h2]
      have h0 : d = 0 := by omega
      rw [h0, zero_zsmul, add_zero]

lemma strausRun_formula (body : ℕ → G → G) (c : ℕ → G)
    (hbody : ∀ j r, body j r = r + r + c j) :
    ∀ (i : ℕ) (r0 : G), strausRun body i r0
      = ((2:ℤ) ^ (i + 1)) • r0
        + ∑ j ∈ Finset.range (i + 1), ((2:ℤ) ^ j) • c j := by
  intro i
  induction i with
  | zero =>
    intro r0
    rw [strausRun, hbody]
    rw [Finset.sum_range_one]
    simp [pow_one, pow_zero, one_zsmul, two_zsmul]
  | succ i ih =>
    intro r0
    rw [strausRun, ih, hbody]
    conv_rhs => rw [Finset.sum_range_succ]
    have h1 : ((2:ℤ) ^ (i + 1)) • (r0 + r0 + c (i + 1))
        = ((2:ℤ) ^ (i + 1 + 1)) • r0 + ((2:ℤ) ^ (i + 1)) • c (i + 1) := by
      rw [smul_add, smul_add]
      have h2 : ((2:ℤ) ^ (i + 1)) • r0 + ((2:ℤ) ^ (i + 1)) • r0
          = ((2:ℤ) ^ (i + 1 + 1)) • r0 := by
        rw [← add_zsmul]
        congr 1
        ring
      rw [← h2]
    rw [h1, add_assoc]
    congr 1
    rw [add_comm]

lemma strausRun_zero_start (body : ℕ → G → G) (c : ℕ → G)
    (hbody : ∀ j r, body j r = r + r + c j) (i : ℕ) :
    strausRun body i 0 = ∑ j ∈ Finset.range (i + 1), ((2:ℤ) ^ j) • c j := by
  rw [strausRun_formula body c hbody i 0, smul_zero, zero_add]

lemma sum_digit_collapse (l : List ℤ) (P : G) (N : ℕ) (hl : l.length ≤ N) :
    ∑ j ∈ Finset.range N, ((2:ℤ) ^ j) • ((nafDigitAt l j) • P)
      = (nafListVal l) • P := by
  have h1 : ∀ j ∈ Finset.range N, ((2:ℤ) ^ j) • ((nafDigitAt l j) • P)
      = (nafDigitAt l j * 2 ^ j) • P := by
    intro j _
    rw [smul_smul, mul_comm]
  rw [Finset.sum_congr rfl h1, ← Finset.sum_smul, sum_nafDigitAt l N hl]

lemma evalLoopBody_eq (n0 n1 n2 n3 : List ℤ) (P0 P1 P2 P3 : G) (j : ℕ)
    (r : G) :
    evalLoopBody n0 n1 n2 n3 (fun k => k • P0) (fun k => k • P1)
        (fun k => k • P2) (fun k => k • P3) j r
      = r + r + (nafDigitAt n0 j • P0 + nafDigitAt n1 j • P1 +
          nafDigitAt n2 j • P2 + nafDigitAt n3 j • P3) := by
  unfold evalLoopBody setCompletedToProjective completedDouble
  rw [nafTableTerm_eq, nafTableTerm_eq, nafTableTerm_eq, nafTableTerm_eq]
  abel

lemma evalLoopBodyVector_eq (n0 n1 n2 n3 : List ℤ) (P0 P1 P2 P3 : G) (j : ℕ)
    (r : G) :
    evalLoopBodyVector n0 n1 n2 n3 (fun k => k • P0) (fun k => k • P1)
        (fun k => k • P2) (fun k => k • P3) j r
      = r + r + (nafDigitAt n0 j • P0 + nafDigitAt n1 j • P1 +
          nafDigitAt n2 j • P2 + nafDigitAt n3 j • P3) := by
  unfold evalLoopBodyVector extendedDouble
  rw [nafTableTerm_eq, nafTableTerm_eq, nafTableTerm_eq, nafTableTerm_eq]
  abel

lemma scan_digits_zero (n0 n1 n2 n3 : List ℤ) (j : ℕ)
    (h0 : n0.length ≤ 256) (h1 : n1.length ≤ 256) (h2 : n2.length ≤ 256)
    (h3 : n3.length ≤ 256)
    (hj : evalStartIndex n0 n1 n2 n3 < j) :
    nafDigitAt n0 j = 0 ∧ nafDigitAt n1 j = 0 ∧ nafDigitAt n2 j = 0 ∧
      nafDigitAt n3 j = 0 := by
  by_cases hup : j ≤ 255
  · by_cases hflag : evalScanFlag n0 n1 n2 n3 j = true
    · exfalso
      have h4 := nafScanDown_ge (evalScanFlag n0 n1 n2 n3) 255 j hup hflag
      unfold evalStartIndex at hj
      omega
    · have hfl : evalScanFlag n0 n1 n2 n3 j = false := by
        simp only [Bool.not_eq_true] at hflag
        exact hflag
      unfold evalScanFlag at hfl
      simp only [Bool.or_eq_false_iff, bne_eq_false_iff_eq] at hfl
      exact ⟨hfl.1.1.1, hfl.1.1.2, hfl.1.2, hfl.2⟩
  · have hj256 : 256 ≤ j := by omega
    refine ⟨?_, ?_, ?_, ?_⟩ <;>
      (unfold nafDigitAt; apply List.getD_eq_default; omega)

lemma strausLoop_value (n0 n1 n2 n3 : List ℤ) (P0 P1 P2 P3 : G)
    (h0 : n0.length = 256) (h1 : n1.length = 256) (h2 : n2.length = 256)
    (h3 : n3.length = 256) :
    strausRun (evalLoopBody n0 n1 n2 n3 (fun k => k • P0) (fun k => k • P1)
        (fun k => k • P2) (fun k => k • P3))
      (evalStartIndex n0 n1 n2 n3) 0
    = nafListVal n0 • P0 + nafListVal n1 • P1 + nafListVal n2 • P2 +
        nafListVal n3 • P3 := by
  set i := evalStartIndex n0 n1 n2 n3 with hidef
  have hi : i ≤ 255 := nafScanDown_le _ 255
  rw [strausRun_zero_start _
    (fun j => nafDigitAt n0 j • P0 + nafDigitAt n1 j • P1 +
      nafDigitAt n2 j • P2 + nafDigitAt n3 j • P3)
    (fun j r => evalLoopBody_eq n0 n1 n2 n3 P0 P1 P2 P3 j r) i]
  have hext : ∑ j ∈ Finset.range (i + 1),
      ((2:ℤ) ^ j) • (nafDigitAt n0 j • P0 + nafDigitAt n1 j • P1 +
        nafDigitAt n2 j • P2 + nafDigitAt n3 j • P3)
      = ∑ j ∈ Finset.range 256,
      ((2:ℤ) ^ j) • (nafDigitAt n0 j • P0 + nafDigitAt n1 j • P1 +
        nafDigitAt n2 j • P2 + nafDigitAt n3 j • P3) := by
    apply Finset.sum_subset
    · apply Finset.range_subset.mpr
      omega
    · intro j _ hj
      have hjgt : i < j := by
        simp only [Finset.mem_range] at hj
        omega
      obtain ⟨z0, z1, z2, z3⟩ := scan_digits_zero n0 n1 n2 n3 j
        (by omega) (by omega) (by omega) (by omega) hjgt
      rw [z0, z1, z2, z3]
      simp
  rw [hext]
  have hsplit : ∀ j ∈ Finset.range 256,
      ((2:ℤ) ^ j) • (nafDigitAt n0 j • P0 + nafDigitAt n1 j • P1 +
        nafDigitAt n2 j • P2 + nafDigitAt n3 j • P3)
      = ((2:ℤ) ^ j) • (nafDigitAt n0 j • P0) +
        ((2:ℤ) ^ j) • (nafDigitAt n1 j • P1) +
        ((2:ℤ) ^ j) • (nafDigitAt n2 j • P2) +
        ((2:ℤ) ^ j) • (nafDigitAt n3 j • P3) := by
    intro j _
    rw [smul_add, smul_add, smul_add]
  rw [Finset.sum_congr rfl hsplit]
  rw [Finset.sum_add_distrib, Finset.sum_add_distrib, Finset.sum_add_distrib]
  rw [sum_digit_collapse n0 P0 256 (by omega),
    sum_digit_collapse n1 P1 256 (by omega),
    sum_digit_collapse n2 P2 256 (by omega),
    sum_digit_collapse n3 P3 256 (by omega)]

end StrausLemmas

/-! ## Assembly: the value computed by the evaluator -/

section Assembly

variable {G : Type} [AddCommGroup G]

lemma tableProj_def (P : G) :
    newProjectiveNielsPointNafLookupTable P = fun k => k • P := rfl

lemma tableCached_def (P : G) :
    newCachedPointNafLookupTable P = fun k => k • P := rfl

lemma tableAff_def (B : G) :
    constAFFINE_ODD_MULTIPLES_OF_BASEPOINT B = fun k => k • B := rfl

lemma tableAff128_def (B : G) :
    constAFFINE_ODD_MULTIPLES_OF_B_SHL_128 B
      = fun k => k • ((2 ^ 128 : ℕ) • B) := rfl

lemma tableVec_def (B : G) :
    constVECTOR_ODD_MULTIPLES_OF_BASEPOINT B = fun k => k • B := rfl

lemma tableVec128_def (B : G) :
    constVECTOR_ODD_MULTIPLES_OF_B_SHL_128 B
      = fun k => k • ((2 ^ 128 : ℕ) • B) := rfl

lemma natAbs_zsmul_signA (d : ℤ) (A : G) :
    ((d.natAbs : ℤ)) • (if d < 0 then -A else A) = d • A := by
  by_cases h : d < 0
  · rw [if_pos h]
    have h1 : (d.natAbs : ℤ) = -d := by omega
    rw [h1, neg_zsmul, smul_neg, neg_neg]
  · rw [if_neg h]
    have h1 : (d.natAbs : ℤ) = d := by omega
    rw [h1]

lemma natAbs_zsmul_signC (d : ℤ) (C : G) :
    ((d.natAbs : ℤ)) • (if d < 0 then C else -C) = -(d • C) := by
  by_cases h : d < 0
  · rw [if_pos h]
    have h1 : (d.natAbs : ℤ) = -d := by omega
    rw [h1, neg_zsmul]
  · rw [if_neg h]
    have h1 : (d.natAbs : ℤ) = d := by omega
    rw [h1, smul_neg]

lemma db_signMerge (b : Scalar) (d : ℤ) :
    (if d < 0 then -b else b) * ((d.natAbs : ℕ) : Scalar)
      = b * ((d : ℤ) : Scalar) := by
  by_cases h : d < 0
  · rw [if_pos h]
    have h2 : (d.natAbs : ℤ) = -d := by omega
    have h1 : ((d.natAbs : ℕ) : Scalar) = -(((d : ℤ)) : Scalar) := by
      rw [← Int.cast_natCast (R := Scalar), h2, Int.cast_neg]
    rw [h1]
    ring
  · rw [if_neg h]
    have h2 : (d.natAbs : ℤ) = d := by omega
    have h1 : ((d.natAbs : ℕ) : Scalar) = (((d : ℤ)) : Scalar) := by
      rw [← Int.cast_natCast (R := Scalar), h2]
    rw [h1]

lemma eB_combine (B : G) (n : ℕ) :
    ((n % 2 ^ 128 : ℕ) : ℤ) • B
      + ((n / 2 ^ 128 : ℕ) : ℤ) • ((2 ^ 128 : ℕ) • B)
      = ((n : ℕ) : ℤ) • B := by
  have h1 : ((2 ^ 128 : ℕ) • B) = ((2 ^ 128 : ℕ) : ℤ) • B := by
    rw [natCast_zsmul]
  rw [h1, smul_smul, ← add_zsmul]
  congr 1
  exact_mod_cast Nat.mod_add_div' n (2 ^ 128)

set_option maxHeartbeats 1000000 in
lemma evalGeneric_eq (B A C : G) (a b : Scalar) :
    edwardsMulAbglsvPorninVartimeGeneric B a A b C
      = some ((lattice.FindShortVector a).1 • A
        + ((((b * (((lattice.FindShortVector a).2 : ℤ) : Scalar)).val : ℕ) : ℤ)) • B
        - (lattice.FindShortVector a).2 • C) := by
  obtain ⟨hdvd, hne, hb0, hb1⟩ := FindShortVector_spec a
  simp only [edwardsMulAbglsvPorninVartimeGeneric, scalarToBytes_eq,
    scalarSetBits_low, scalarSetBits_high, setProjectiveToEdwards,
    tableProj_def, tableAff_def, tableAff128_def]
  rw [Option.some_inj]
  rw [strausLoop_value _ _ _ _ _ _ _ _ (scalarNAF_length 5 _)
    (scalarNAF_length 8 _) (scalarNAF_length 8 _) (scalarNAF_length 5 _)]
  rw [scalarNAF_listVal 5 (by omega) (by omega),
    scalarNAF_listVal 8 (by omega) (by omega),
    scalarNAF_listVal 8 (by omega) (by omega),
    scalarNAF_listVal 5 (by omega) (by omega)]
  rw [val_low, val_high]
  have hv0 : (((((lattice.FindShortVector a).1.natAbs : ℕ)) : Scalar)).val
      = (lattice.FindShortVector a).1.natAbs := by
    apply ZMod.val_cast_of_lt
    have h2 := two_129_lt_ellN
    omega
  have hv1 : (((((lattice.FindShortVector a).2.natAbs : ℕ)) : Scalar)).val
      = (lattice.FindShortVector a).2.natAbs := by
    apply ZMod.val_cast_of_lt
    have h2 := two_129_lt_ellN
    omega
  rw [hv0, hv1]
  rw [natAbs_zsmul_signA, natAbs_zsmul_signC]
  rw [add_assoc ((lattice.FindShortVector a).1 • A)]
  rw [eB_combine]
  rw [← db_signMerge b (lattice.FindShortVector a).2]
  rw [← sub_eq_add_neg]

end Assembly

section VectorModel

variable {G : Type} [AddCommGroup G]

lemma vector_eq_generic (B A C : G) (a b : Scalar) :
    edwardsMulAbglsvPorninVartimeVector B a A b C
      = edwardsMulAbglsvPorninVartimeGeneric B a A b C := rfl

lemma vartime_eq_generic (vec : Bool) (B A C : G) (a b : Scalar) :
    edwardsMulAbglsvPorninVartime vec B a A b C
      = edwardsMulAbglsvPorninVartimeGeneric B a A b C := by
  cases vec with
  | true =>
    show edwardsMulAbglsvPorninVartimeVector B a A b C = _
    exact vector_eq_generic B A C a b
  | false => rfl

end VectorModel

set_option maxHeartbeats 1000000 in
lemma findShortVector_zero : lattice.FindShortVector 0 = (0, 1) := by decide

set_option maxHeartbeats 1000000 in
lemma findShortVector_negOne :
    lattice.FindShortVector ((ellN - 1 : ℕ) : Scalar) = (1, -1) := by decide

/-! ## The x25519 wrapper -/

lemma clampScalar_length (s : List ℕ) : (clampScalar s).length = s.length := by
  unfold clampScalar
  simp [List.length_set]

lemma scalarSetBits_of_length (buf : List ℕ) (h : buf.length = 32) :
    scalarSetBits buf = some ((bytesToNat buf : ℕ) : Scalar) := by
  unfold scalarSetBits
  rw [if_pos h]

lemma ScalarMult_eval (f : Scalar → List ℕ → List ℕ) (inB base : List ℕ)
    (h1 : inB.length = 32) (h2 : base.length = 32) :
    (ScalarMult f inB base).1
      = some (f ((bytesToNat (clampScalar inB) : ℕ) : Scalar) base) := by
  simp only [ScalarMult]
  rw [scalarSetBits_of_length _ (by rw [clampScalar_length]; exact h1)]
  simp [if_pos h2]

lemma ScalarBaseMult_eval (g : Scalar → List ℕ) (inB : List ℕ)
    (h1 : inB.length = 32) :
    (ScalarBaseMult g inB).1
      = some (g ((bytesToNat (clampScalar inB) : ℕ) : Scalar)) := by
  simp only [ScalarBaseMult]
  rw [scalarSetBits_of_length _ (by rw [clampScalar_length]; exact h1)]

/-! ## The claims -/

/-- Claim C1, counterexample: at `a = ℓ - 1`, `b = 0`, `A = 1`, `C = 0`,
`B = 0` in the group ℤ, the dispatcher writes `[d₁]`-scaled output `1`,
which differs from the claimed `[a]·A + [b]·B − C = ℓ - 1`; so the output is
not `[a]·A + [b]·B − C` in general. -/
theorem claimC1_counterexample :
    ¬ (edwardsMulAbglsvPorninVartime false (0:ℤ) (((ellN - 1 : ℕ) : Scalar))
        (1:ℤ) (0:Scalar) (0:ℤ)
      = some (((((((ellN - 1 : ℕ) : Scalar)).val : ℕ) : ℤ)) • (1:ℤ)
          + ((((0:Scalar)).val : ℕ) : ℤ) • (0:ℤ) - (0:ℤ))) := by
  intro h
  rw [vartime_eq_generic, evalGeneric_eq, findShortVector_negOne] at h
  rw [Option.some_inj] at h
  have h0 : (0:ℕ) < ellN := by decide
  have hval : (((ellN - 1 : ℕ) : Scalar)).val = ellN - 1 :=
    ZMod.val_cast_of_lt (by omega)
  rw [hval] at h
  simp only [ZMod.val_zero, Nat.cast_zero, smul_zero, one_zsmul, add_zero,
    sub_zero, zero_add, zsmul_eq_mul, mul_one] at h
  have hne : ((ellN - 1 : ℕ) : ℤ) ≠ 1 := by
    exact_mod_cast (show (ellN - 1 : ℕ) ≠ 1 by decide)
  exact hne h.symm

/-- Claim C1, amended: for every pair of scalars `a`, `b`, every pair of
points `A`, `C` and either platform flag, `edwardsMulAbglsvPorninVartime`
writes `[d₀]·A + [(b·d₁) mod ℓ]·B − [d₁]·C`, the target `[a]·A + [b]·B − C`
scaled by the lattice-induced factor `d₁`, where `(d₀, d₁)` is the pair
returned by the lattice reducer on `a`. -/
theorem claimC1_amended {G : Type} [AddCommGroup G] (vec : Bool) (B A C : G)
    (a b : Scalar) :
    edwardsMulAbglsvPorninVartime vec B a A b C
      = some ((lattice.FindShortVector a).1 • A
        + ((((b * (((lattice.FindShortVector a).2 : ℤ) : Scalar)).val : ℕ) : ℤ)) • B
        - (lattice.FindShortVector a).2 • C) := by
  rw [vartime_eq_generic]
  exact evalGeneric_eq B A C a b

/-- Claim C2: with `(d₀, d₁)` the signed pair returned by the lattice
reducer on `a`, the generic evaluator writes
`[d₀]·A + [(b·d₁) mod ℓ]·B − [d₁]·C`; and when `A`, `B`, `C` are killed by
ℓ (the prime-order subgroup), this point equals the target
`[a]·A + [b]·B − C` scaled by `d₁`. -/
theorem claimC2_theorem {G : Type} [AddCommGroup G] (B A C : G)
    (a b : Scalar) :
    (edwardsMulAbglsvPorninVartimeGeneric B a A b C
      = some ((lattice.FindShortVector a).1 • A
        + ((((b * (((lattice.FindShortVector a).2 : ℤ) : Scalar)).val : ℕ) : ℤ)) • B
        - (lattice.FindShortVector a).2 • C)) ∧
    ((ellN : ℕ) • A = 0 → (ellN : ℕ) • B = 0 → (ellN : ℕ) • C = 0 →
      edwardsMulAbglsvPorninVartimeGeneric B a A b C
        = some ((lattice.FindShortVector a).2 •
            (((a.val : ℕ) : ℤ) • A + ((b.val : ℕ) : ℤ) • B - C))) := by
  obtain ⟨hdvd, hne, hb0, hb1⟩ := FindShortVector_spec a
  refine ⟨evalGeneric_eq B A C a b, ?_⟩
  intro hA hB hC
  rw [evalGeneric_eq B A C a b, Option.some_inj]
  set p := lattice.FindShortVector a with hp
  have hzA : ((ellN : ℕ) : ℤ) • A = 0 := by rw [natCast_zsmul]; exact hA
  have hzB : ((ellN : ℕ) : ℤ) • B = 0 := by rw [natCast_zsmul]; exact hB
  have hzC : ((ellN : ℕ) : ℤ) • C = 0 := by rw [natCast_zsmul]; exact hC
  have hA' : p.1 • A = (p.2 * ((a.val : ℕ) : ℤ)) • A := by
    obtain ⟨k, hk⟩ := hdvd
    have hk1 : p.1 = p.2 * ((a.val : ℕ) : ℤ) + (ellN : ℤ) * k := by
      push_cast at hk ⊢
      linarith [hk]
    rw [hk1, add_zsmul, mul_comm ((ellN : ℤ)) k]
    have hkA : (k * (ellN : ℤ)) • A = 0 := by
      rw [mul_zsmul, hzA, smul_zero]
    rw [hkA, add_zero]
  have hBcong : (ellN : ℤ) ∣
      ((((b * ((p.2 : ℤ) : Scalar)).val : ℕ) : ℤ)
        - p.2 * ((b.val : ℕ) : ℤ)) := by
    rw [← ZMod.intCast_zmod_eq_zero_iff_dvd]
    push_cast
    rw [ZMod.natCast_val, ZMod.cast_id, ZMod.natCast_val, ZMod.cast_id]
    ring
  have hB' : ((((b * ((p.2 : ℤ) : Scalar)).val : ℕ) : ℤ)) • B
      = (p.2 * ((b.val : ℕ) : ℤ)) • B := by
    obtain ⟨k, hk⟩ := hBcong
    have hk1 : ((((b * ((p.2 : ℤ) : Scalar)).val : ℕ) : ℤ))
        = p.2 * ((b.val : ℕ) : ℤ) + (ellN : ℤ) * k := by
      linarith [hk]
    rw [hk1, add_zsmul, mul_comm ((ellN : ℤ)) k]
    have hkB : (k * (ellN : ℤ)) • B = 0 := by
      rw [mul_zsmul, hzB, smul_zero]
    rw [hkB, add_zero]
  rw [hA', hB', smul_sub, smul_add, ← mul_zsmul, ← mul_zsmul]

/-- Claim C3: for every combination of scalars and points, the generic
realization (projective/completed accumulator) and the vectorized
realization (extended accumulator) write equal group elements. -/
theorem claimC3_theorem {G : Type} [AddCommGroup G] (B A C : G)
    (a b : Scalar) :
    edwardsMulAbglsvPorninVartimeVector B a A b C
      = edwardsMulAbglsvPorninVartimeGeneric B a A b C :=
  vector_eq_generic B A C a b

/-- Claim C4: for every scalar `a`, the pair `(d₀, d₁)` returned by
`lattice.FindShortVector a` satisfies `d₀ ≡ a·d₁ (mod ℓ)` after sign
application, `d₁ ≠ 0`, and `max(|d₀|, |d₁|) < 2¹²⁹`. -/
theorem claimC4_theorem (a : Scalar) :
    ((ellN:ℤ) ∣ ((lattice.FindShortVector a).1
      - ((a.val : ℕ) : ℤ) * (lattice.FindShortVector a).2)) ∧
    (lattice.FindShortVector a).2 ≠ 0 ∧
    (lattice.FindShortVector a).1.natAbs < 2 ^ 129 ∧
    (lattice.FindShortVector a).2.natAbs < 2 ^ 129 :=
  FindShortVector_spec a

/-- Claim C5: with `db` the reduced scalar product of the sign-merged `b`
and `|d₁|`, the scalar `e₀` equals the low 128 bits of `db`, `e₁` equals
bits 128..256 of `db` with its top 3 bits zero (`e₁ < 2¹²⁵`), and
`db = e₀ + 2¹²⁸·e₁` both as integers and as scalars mod ℓ. -/
theorem claimC5_theorem (a b : Scalar) :
    (e0Of a b).val = (dbScalarOf a b).val % 2 ^ 128 ∧
    (e1Of a b).val = (dbScalarOf a b).val / 2 ^ 128 ∧
    (e1Of a b).val < 2 ^ 125 ∧
    (dbScalarOf a b).val = (e0Of a b).val + 2 ^ 128 * (e1Of a b).val ∧
    e0Of a b + ((2 ^ 128 : ℕ) : Scalar) * e1Of a b = dbScalarOf a b := by
  set db := dbScalarOf a b with hdb
  have he0 : e0Of a b = ((db.val % 2 ^ 128 : ℕ) : Scalar) := by
    unfold e0Of
    rw [← hdb]
    unfold scalarBytes
    rw [bytesToNat_low]
  have he1 : e1Of a b = ((db.val / 2 ^ 128 : ℕ) : Scalar) := by
    unfold e1Of
    rw [← hdb]
    unfold scalarBytes
    rw [bytesToNat_high db.val (scalar_val_lt_2_256 db)]
  have hv0 : (e0Of a b).val = db.val % 2 ^ 128 := by rw [he0]; exact val_low db
  have hv1 : (e1Of a b).val = db.val / 2 ^ 128 := by rw [he1]; exact val_high db
  refine ⟨hv0, hv1, ?_, ?_, ?_⟩
  · rw [hv1]
    have h1 : db.val < ellN := ZMod.val_lt db
    have h2 := ellN_lt_2_253
    apply Nat.div_lt_of_lt_mul
    calc db.val < 2 ^ 253 := by omega
      _ = 2 ^ 128 * 2 ^ 125 := by norm_num
  · rw [hv0, hv1]
    exact (Nat.mod_add_div db.val (2 ^ 128)).symm
  · have hsplit : db.val = (e0Of a b).val + 2 ^ 128 * (e1Of a b).val := by
      rw [hv0, hv1]
      exact (Nat.mod_add_div db.val (2 ^ 128)).symm
    have hcast : ((db.val : ℕ) : Scalar) = db := ZMod.natCast_rightInverse db
    rw [← hcast]
    conv_rhs => rw [hsplit]
    push_cast [ZMod.natCast_val, ZMod.cast_id]
    rfl

/-- Claim C6, counterexample: at `a = ℓ - 1`, `b = 0`, `A = 1`, `C = 0`,
`B = 0` in the group ℤ, the evaluator writes `1`, not the claimed
`[a]·A − C = ℓ - 1`; so the `b = 0` clause fails as stated. -/
theorem claimC6_counterexample :
    ¬ (edwardsMulAbglsvPorninVartimeGeneric (0:ℤ)
        (((ellN - 1 : ℕ) : Scalar)) (1:ℤ) (0:Scalar) (0:ℤ)
      = some (((((((ellN - 1 : ℕ) : Scalar)).val : ℕ) : ℤ)) • (1:ℤ) - (0:ℤ))) := by
  intro h
  rw [evalGeneric_eq, findShortVector_negOne] at h
  rw [Option.some_inj] at h
  have h0 : (0:ℕ) < ellN := by decide
  have hval : (((ellN - 1 : ℕ) : Scalar)).val = ellN - 1 :=
    ZMod.val_cast_of_lt (by omega)
  rw [hval] at h
  simp only [smul_zero, one_zsmul, add_zero, sub_zero, zero_add,
    zsmul_eq_mul, mul_one] at h
  have hne : ((ellN - 1 : ℕ) : ℤ) ≠ 1 := by
    exact_mod_cast (show (ellN - 1 : ℕ) ≠ 1 by decide)
  exact hne h.symm

/-- Claim C6, amended: if `a = 0` the result equals `[b]·B − C` and the
lattice reducer returns the trivial short vector `(0, 1)`; if `a = b = 0`
the result equals `−C`; if `b = 0` the result equals
`[d₀]·A − [d₁]·C` (the target `[a]·A − C` scaled by `d₁`), not `[a]·A − C`
in general. -/
theorem claimC6_theorem {G : Type} [AddCommGroup G] (B A C : G)
    (a b : Scalar) :
    (a = 0 → edwardsMulAbglsvPorninVartimeGeneric B a A b C
      = some (((b.val : ℕ) : ℤ) • B - C)) ∧
    (a = 0 → b = 0 → edwardsMulAbglsvPorninVartimeGeneric B a A b C
      = some (-C)) ∧
    (a = 0 → lattice.FindShortVector a = (0, 1)) ∧
    (b = 0 → edwardsMulAbglsvPorninVartimeGeneric B a A b C
      = some ((lattice.FindShortVector a).1 • A
          - (lattice.FindShortVector a).2 • C)) := by
  have hmain : a = 0 → edwardsMulAbglsvPorninVartimeGeneric B a A b C
      = some (((b.val : ℕ) : ℤ) • B - C) := by
    intro ha
    subst ha
    rw [evalGeneric_eq, findShortVector_zero]
    simp only [Int.cast_one, mul_one, zero_zsmul, one_zsmul, zero_add]
  refine ⟨hmain, ?_, ?_, ?_⟩
  · intro ha hb
    rw [hmain ha, hb]
    simp
  · intro ha
    subst ha
    exact findShortVector_zero
  · intro hb
    subst hb
    rw [evalGeneric_eq]
    simp only [zero_mul, ZMod.val_zero, Nat.cast_zero, zero_zsmul, add_zero]

/-- Claim C7: the starting-index scan selects the largest index `j ≤ 255`
at which any of the four NAF arrays is nonzero; and when all four arrays
are entirely zero, the evaluation loop leaves the accumulator at the
identity, so the loop's result is the identity element. -/
theorem claimC7_theorem {G : Type} [AddCommGroup G] (n0 n1 n2 n3 : List ℤ)
    (t0 t1 t2 t3 : ℕ → G) :
    ((∃ j, j ≤ 255 ∧ evalScanFlag n0 n1 n2 n3 j = true) →
      evalScanFlag n0 n1 n2 n3 (evalStartIndex n0 n1 n2 n3) = true) ∧
    (∀ j, j ≤ 255 → evalScanFlag n0 n1 n2 n3 j = true →
      j ≤ evalStartIndex n0 n1 n2 n3) ∧
    ((∀ j, nafDigitAt n0 j = 0) → (∀ j, nafDigitAt n1 j = 0) →
      (∀ j, nafDigitAt n2 j = 0) → (∀ j, nafDigitAt n3 j = 0) →
      strausRun (evalLoopBody n0 n1 n2 n3 t0 t1 t2 t3)
        (evalStartIndex n0 n1 n2 n3) 0 = 0) := by
  refine ⟨?_, ?_, ?_⟩
  · intro hex
    exact nafScanDown_true _ 255 hex
  · intro j hj hg
    exact nafScanDown_ge _ 255 j hj hg
  · intro h0 h1 h2 h3
    have hbody : ∀ j r, evalLoopBody n0 n1 n2 n3 t0 t1 t2 t3 j r
        = r + r + (0 : G) := by
      intro j r
      unfold evalLoopBody setCompletedToProjective completedDouble
      rw [h0 j, h1 j, h2 j, h3 j]
      unfold nafTableTerm
      norm_num
    rw [strausRun_zero_start _ (fun _ => (0:G)) hbody]
    simp

/-- Claim C8: the generic evaluator is total on all well-formed scalars and
points; the panic branches guarding `ToBytes` and the two `SetBits` calls
are unreachable, so the result is always written. -/
theorem claimC8_theorem {G : Type} [AddCommGroup G] (B A C : G)
    (a b : Scalar) :
    (edwardsMulAbglsvPorninVartimeGeneric B a A b C).isSome = true := by
  rw [evalGeneric_eq]
  rfl

/-- Claim C9: `x25519` returns a non-nil error (modelled by `none`) exactly
when the scalar length is not 32, or the point length is not 32, or the
point is not the package-level Basepoint slice and the computed Montgomery
output is all 32 zero bytes; otherwise it returns a 32-byte result.  (In the
source the error cases return a nil slice, which the `Option` model
captures.) -/
theorem claimC9_theorem (f : Scalar → List ℕ → List ℕ) (g : Scalar → List ℕ)
    (s p : List ℕ) (flag : Bool)
    (hf : ∀ x y, (f x y).length = 32) (hg : ∀ x, (g x).length = 32) :
    (x25519 f g s p flag = none ↔
      (s.length ≠ 32 ∨ p.length ≠ 32 ∨
        (flag = false ∧ (ScalarMult f s p).1 = some (List.replicate 32 0)))) ∧
    (∀ r, x25519 f g s p flag = some r → r.length = 32) := by
  by_cases hs : s.length = 32
  · by_cases hp : p.length = 32
    · cases flag
      · have hx : x25519 f g s p false
            = (if f ((bytesToNat (clampScalar s) : ℕ) : Scalar) p
                = List.replicate 32 0 then none
              else some (f ((bytesToNat (clampScalar s) : ℕ) : Scalar) p)) := by
          unfold x25519
          rw [if_neg (by omega), if_neg (by omega), if_neg (by simp)]
          rw [ScalarMult_eval f s p hs hp]
        rw [ScalarMult_eval f s p hs hp]
        by_cases hz : f ((bytesToNat (clampScalar s) : ℕ) : Scalar) p
            = List.replicate 32 0
        · rw [hx, if_pos hz]
          constructor
          · constructor
            · intro _
              right; right
              exact ⟨rfl, by rw [hz]⟩
            · intro _; rfl
          · intro r hr
            exact absurd hr (by simp)
        · rw [hx, if_neg hz]
          constructor
          · constructor
            · intro hcontra
              exact absurd hcontra (by simp)
            · intro hor
              rcases hor with h | h | ⟨_, h⟩
              · exact absurd hs h
              · exact absurd hp h
              · rw [Option.some_inj] at h
                exact absurd h hz
          · intro r hr
            rw [Option.some_inj] at hr
            rw [← hr]
            exact hf _ _
      · have hx : x25519 f g s p true
            = some (g ((bytesToNat (clampScalar s) : ℕ) : Scalar)) := by
          unfold x25519
          rw [if_neg (by omega), if_neg (by omega), if_pos (by simp)]
          exact ScalarBaseMult_eval g s hs
        rw [hx]
        constructor
        · constructor
          · intro hcontra
            exact absurd hcontra (by simp)
          · intro hor
            rcases hor with h | h | ⟨h, _⟩
            · exact absurd hs h
            · exact absurd hp h
            · exact absurd h (by simp)
        · intro r hr
          rw [Option.some_inj] at hr
          rw [← hr]
          exact hg _
    · have hx : x25519 f g s p flag = none := by
        unfold x25519
        rw [if_neg (by omega), if_pos (by omega)]
      rw [hx]
      constructor
      · constructor
        · intro _
          right; left; exact hp
        · intro _; rfl
      · intro r hr
        exact absurd hr (by simp)
  · have hx : x25519 f g s p flag = none := by
      unfold x25519
      rw [if_pos (by omega)]
    rw [hx]
    constructor
    · constructor
      · intro _
        left; exact hs
      · intro _; rfl
    · intro r hr
      exact absurd hr (by simp)

/-- Claim C10: the outputs of `ScalarMult` and `ScalarBaseMult` depend on
the scalar input only through its clamped value — two scalar buffers with
equal clampings produce identical `dst` bytes — and the caller's scalar
buffer is unchanged after the call. -/
theorem claimC10_theorem (f : Scalar → List ℕ → List ℕ)
    (g : Scalar → List ℕ) (in1 in2 base : List ℕ)
    (hc : clampScalar in1 = clampScalar in2) :
    (ScalarMult f in1 base).1 = (ScalarMult f in2 base).1 ∧
    (ScalarBaseMult g in1).1 = (ScalarBaseMult g in2).1 ∧
    (ScalarMult f in1 base).2 = in1 ∧
    (ScalarBaseMult g in1).2 = in1 := by
  refine ⟨?_, ?_, rfl, rfl⟩
  · show (let ec := clampScalar in1
      (match scalarSetBits ec with
        | none => none
        | some s => if base.length = 32 then some (f s base) else none,
        in1)).1 = _
    simp only [ScalarMult, hc]
  · simp only [ScalarBaseMult, hc]

lemma nafDigitAt_replicate_zero : ∀ n j, nafDigitAt (List.replicate n (0:ℤ)) j = 0 := by
  intro n
  induction n with
  | zero => intro j; rfl
  | succ n ih =>
    intro j
    cases j with
    | zero => rfl
    | succ j =>
      rw [List.replicate_succ]
      show nafDigitAt (List.replicate n (0:ℤ)) j = 0
      exact ih j

/-- Witness for claim C2: the theorem applied at concrete inputs in ℤ with
all points zero, where the ℓ-torsion hypotheses hold. -/
theorem claimC2_witness :
    (edwardsMulAbglsvPorninVartimeGeneric (0:ℤ) (0:Scalar) (0:ℤ) (1:Scalar)
        (0:ℤ)
      = some ((lattice.FindShortVector (0:Scalar)).1 • (0:ℤ)
        + (((((1:Scalar) * (((lattice.FindShortVector (0:Scalar)).2 : ℤ) : Scalar)).val : ℕ) : ℤ)) • (0:ℤ)
        - (lattice.FindShortVector (0:Scalar)).2 • (0:ℤ))) ∧
    (edwardsMulAbglsvPorninVartimeGeneric (0:ℤ) (0:Scalar) (0:ℤ) (1:Scalar)
        (0:ℤ)
      = some ((lattice.FindShortVector (0:Scalar)).2 •
          ((((ZMod.val (0:Scalar) : ℕ) : ℤ)) • (0:ℤ)
            + (((ZMod.val (1:Scalar) : ℕ) : ℤ)) • (0:ℤ) - (0:ℤ)))) := by
  obtain ⟨h1, h2⟩ := claimC2_theorem (0:ℤ) (0:ℤ) (0:ℤ) (0:Scalar) (1:Scalar)
  exact ⟨h1, h2 (smul_zero ellN) (smul_zero ellN) (smul_zero ellN)⟩

/-- Witness for claim C6: the theorem applied at `a = 0`, `b = 0` with
concrete points in ℤ. -/
theorem claimC6_witness :
    (edwardsMulAbglsvPorninVartimeGeneric (2:ℤ) (0:Scalar) (3:ℤ) (0:Scalar)
        (5:ℤ)
      = some ((((ZMod.val (0:Scalar) : ℕ) : ℤ)) • (2:ℤ) - (5:ℤ))) ∧
    (edwardsMulAbglsvPorninVartimeGeneric (2:ℤ) (0:Scalar) (3:ℤ) (0:Scalar)
        (5:ℤ) = some (-(5:ℤ))) ∧
    (lattice.FindShortVector (0:Scalar) = (0, 1)) ∧
    (edwardsMulAbglsvPorninVartimeGeneric (2:ℤ) (0:Scalar) (3:ℤ) (0:Scalar)
        (5:ℤ)
      = some ((lattice.FindShortVector (0:Scalar)).1 • (3:ℤ)
          - (lattice.FindShortVector (0:Scalar)).2 • (5:ℤ))) := by
  obtain ⟨h1, h2, h3, h4⟩ :=
    claimC6_theorem (2:ℤ) (3:ℤ) (5:ℤ) (0:Scalar) (0:Scalar)
  exact ⟨h1 rfl, h2 rfl rfl, h3 rfl, h4 rfl⟩

/-- Witness for claim C7: the scan settles on index 255 for an array whose
only nonzero digit sits at index 255, and the loop yields the identity on
all-zero arrays. -/
theorem claimC7_witness :
    (255 ≤ evalStartIndex (List.replicate 255 (0:ℤ) ++ [1])
      (List.replicate 256 (0:ℤ)) (List.replicate 256 (0:ℤ))
      (List.replicate 256 (0:ℤ))) ∧
    (strausRun (evalLoopBody (List.replicate 256 (0:ℤ))
        (List.replicate 256 (0:ℤ)) (List.replicate 256 (0:ℤ))
        (List.replicate 256 (0:ℤ))
        (fun k => (k:ℤ)) (fun k => (k:ℤ)) (fun k => (k:ℤ)) (fun k => (k:ℤ)))
      (evalStartIndex (List.replicate 256 (0:ℤ)) (List.replicate 256 (0:ℤ))
        (List.replicate 256 (0:ℤ)) (List.replicate 256 (0:ℤ))) 0 = 0) := by
  constructor
  · exact (claimC7_theorem (List.replicate 255 (0:ℤ) ++ [1])
      (List.replicate 256 (0:ℤ)) (List.replicate 256 (0:ℤ))
      (List.replicate 256 (0:ℤ))
      (fun k => (k:ℤ)) (fun k => (k:ℤ)) (fun k => (k:ℤ))
      (fun k => (k:ℤ))).2.1 255 (by omega) (by decide)
  · exact (claimC7_theorem (List.replicate 256 (0:ℤ))
      (List.replicate 256 (0:ℤ)) (List.replicate 256 (0:ℤ))
      (List.replicate 256 (0:ℤ))
      (fun k => (k:ℤ)) (fun k => (k:ℤ)) (fun k => (k:ℤ))
      (fun k => (k:ℤ))).2.2
      (nafDigitAt_replicate_zero 256) (nafDigitAt_replicate_zero 256)
      (nafDigitAt_replicate_zero 256) (nafDigitAt_replicate_zero 256)

/-- Witness for claim C9: the theorem applied with a Montgomery ladder stub
returning all-one bytes, 32-byte buffers and the non-basepoint path. -/
theorem claimC9_witness :
    (x25519 (fun _ _ => List.replicate 32 1) (fun _ => List.replicate 32 1)
        (List.replicate 32 0) (List.replicate 32 9) false = none ↔
      ((List.replicate 32 (0:ℕ)).length ≠ 32 ∨
        (List.replicate 32 (9:ℕ)).length ≠ 32 ∨
        (false = false ∧
          (ScalarMult (fun _ _ => List.replicate 32 1) (List.replicate 32 0)
            (List.replicate 32 9)).1 = some (List.replicate 32 0)))) ∧
    (∀ r, x25519 (fun _ _ => List.replicate 32 1)
        (fun _ => List.replicate 32 1)
        (List.replicate 32 0) (List.replicate 32 9) false = some r →
      r.length = 32) :=
  claimC9_theorem (fun _ _ => List.replicate 32 1)
    (fun _ => List.replicate 32 1) (List.replicate 32 0)
    (List.replicate 32 9) false
    (by intro x y; simp) (by intro x; simp)

/-- Witness for claim C10: two distinct 32-byte scalar buffers with equal
clampings (differing in a low bit of byte 0) drive the theorem. -/
theorem claimC10_witness :
    ((ScalarMult (fun _ _ => List.replicate 32 1) (List.replicate 32 0)
        (List.replicate 32 0)).1
      = (ScalarMult (fun _ _ => List.replicate 32 1)
          (1 :: List.replicate 31 0) (List.replicate 32 0)).1) ∧
    ((ScalarBaseMult (fun _ => List.replicate 32 1)
        (List.replicate 32 0)).1
      = (ScalarBaseMult (fun _ => List.replicate 32 1)
          (1 :: List.replicate 31 0)).1) ∧
    ((ScalarMult (fun _ _ => List.replicate 32 1) (List.replicate 32 0)
        (List.replicate 32 0)).2 = List.replicate 32 0) ∧
    ((ScalarBaseMult (fun _ => List.replicate 32 1)
        (List.replicate 32 0)).2 = List.replicate 32 0) :=
  claimC10_theorem (fun _ _ => List.replicate 32 1)
    (fun _ => List.replicate 32 1) (List.replicate 32 0)
    (1 :: List.replicate 31 0) (List.replicate 32 0) (by decide)
